import Mathlib

/-!
# Verification of the chroma rule-serialisation and emitter layer

Shallow embedding of `src/emitters.go` and `src/serialise.go` of the
`kingdonb/chroma` repository (a declarative, rule-driven lexical tokenizer),
together with the parts of the surrounding data model those files use.

Conventions of the embedding:

* Go interface values that may be `nil` become `Option`.
* Go `panic` and Go `error` returns both become `Except.error`; an
  `Iterator` (a lazy token stream) becomes `List Token`, and `Concaterator`
  becomes list concatenation (spec §4.2: results are concatenated in group
  order).
* Go `int` arithmetic that can go negative (`len(groups)-1`) is carried out
  in `Int`, never in truncated `Nat` subtraction.
* Compiled regexes, lexers and plain Go function values are abstracted to
  functions supplied by an environment; their *identity* (needed for the
  serialisation layer) is carried as plain data (names / tags).
-/

namespace Chroma

/-- Token categories.  In the Go source `TokenType` is an integer type
(`type TokenType int`). -/
abbrev TokenType := Int

/-- Modelled from the spec: the canonical name table `_TokenType_map` of the
generated token-type stringer is not part of the examined source
(`types.go` is missing); §3 of the spec requires a total, bijective
name↔value mapping.  A representative table of real chroma token types,
with pairwise-distinct values and pairwise-distinct canonical names. -/
def TokenType_map : List (Int × String) :=
  [(-1, "Background"), (-2, "Other"), (-3, "Error"), (-4, "None"),
   (1000, "Keyword"), (2000, "Name"), (2004, "NameAttribute"),
   (3100, "LiteralString"), (5000, "Operator"), (6000, "Punctuation"),
   (8000, "Comment"), (9000, "Text"), (9001, "TextWhitespace")]

/-- The sentinel `Error` token category. -/
def Error : TokenType := -3

def Text : TokenType := 9000

def Keyword : TokenType := 1000

def LiteralString : TokenType := 3100

/-- Modelled from the spec: `TokenType.String` (stringer, not in the examined
source) returns the canonical name for known values and a
`TokenType(%d)` placeholder otherwise. -/
def tokenString (t : TokenType) : String :=
  (List.lookup t TokenType_map).getD ("TokenType(" ++ toString t ++ ")")

/-- Reverse lookup used by `TokenType.UnmarshalXML` (serialise.go:183-188):
the first table entry whose canonical name is `name`. -/
def tokenTypeOfName (name : String) : Option TokenType :=
  (TokenType_map.find? (fun p => p.2 == name)).map (fun p => p.1)

/-- A `(category, text)` pair, `chroma.Token`. -/
structure Token where
  type : TokenType
  value : String
deriving DecidableEq, Repr

/-- Modelled from the spec (§4.2 "Direct token type: the entire match becomes
one token of a fixed category"): `TokenType.Emit` (not in the examined
source) emits one token whose text is `groups[0]`, the whole match. -/
def tokenTypeEmit (t : TokenType) (groups : List String) : List Token :=
  [⟨t, groups.headD ""⟩]

/-- The closed set of emitter shapes occurring in `src/emitters.go`.
`token` is a bare `TokenType` used as an emitter; `func` is a type-erased
`EmitterFunc` (emitters.go:16), identified by an index into the
environment's function table — it does *not* implement
`SerialisableEmitter`.  `using` carries the lexer's name
(`usingEmitter.Lexer`, emitters.go:154); `usingself` carries the start
state (`usingSelfEmitter.State`, emitters.go:175). -/
inductive Emitter : Type where
  | token (t : TokenType)
  | bygroups (emitters : List (Option Emitter))
  | bygroupnames (emitters : List (String × Option Emitter))
  | using (lexer : String)
  | usingself (state : String)
  | func (id : Nat)

/-- Modelled from the spec (§4.3; `mutators.go` is not part of the examined
source): the named mutator variants push/pop/include/combined/multi, plus
a type-erased `MutatorFunc` (`mfunc`) which, like `EmitterFunc`, is not
serialisable.  (`includeM` stands for Go's `includeMutator`, whose kind
string is `include`; `include` is a Lean keyword.) -/
inductive Mutator : Type where
  | push (states : List String)
  | pop (depth : Nat)
  | includeM (state : String)
  | combined (states : List String)
  | multi (mutators : List Mutator)
  | mfunc (id : Nat)

/-- Modelled from the spec (§3 "Tokenizer State"): the fields of
`chroma.LexerState` that `src/emitters.go` reads.  `namedGroups` is the
named-capture snapshot of the most recent match (`state.NamedGroups`),
containing an entry under key `"0"` for the whole match; a Go map is
modelled as an association list with left-most-binding lookup.
`ruleRegexGroupName` abstracts
`state.Rules[state.State][state.Rule].Regexp.GroupNameFromNumber`
(emitters.go:64-66) — the compiled rule and the external regexp engine
are not in the examined source.  `selfTokenise start text` abstracts
`state.Lexer.Tokenise(&TokeniseOptions{State: start, Nested: true}, text)`
(emitters.go:181). -/
structure LexerState where
  namedGroups : List (String × String)
  ruleRegexGroupName : Nat → String
  selfTokenise : String → String → Except String (List Token)

/-- The environment closing over everything an `Emit` call reaches through
opaque references: `lexers name text` abstracts
`lexer.Tokenise(&TokeniseOptions{State: "root", Nested: true}, text)` for
the lexer object stored (under its name) in a `usingEmitter`
(emitters.go:162); `funcs` interprets type-erased `EmitterFunc` values. -/
structure EmitEnv where
  lexers : String → String → Except String (List Token)
  funcs : Nat → List String → LexerState → Except String (List Token)

theorem lookup_sizeOf_lt {α : Type} [SizeOf α] :
    ∀ (l : List (String × α)) (k : String) (v : α),
      List.lookup k l = some v → sizeOf v < sizeOf l := by
  intro l
  induction l with
  | nil => intro k v h; simp [List.lookup] at h
  | cons p rest ih =>
    intro k v h
    obtain ⟨pk, pv⟩ := p
    simp only [List.lookup] at h
    cases hk : k == pk with
    | true =>
      rw [hk] at h
      simp only [Option.some.injEq] at h
      subst h
      simp
      omega
    | false =>
      rw [hk] at h
      have := ih k v h
      simp
      omega

mutual

/-- `Emit` for the emitter shapes of `src/emitters.go`.

* `token`: `TokenType.Emit` (spec §4.2, direct token type).
* `bygroups`: `byGroupsEmitter.Emit` (emitters.go:29-42) — on an
  emitter/group count mismatch the single iterator `Error.Emit(groups,
  state)` is produced; otherwise each non-nil emitter `i` is applied to
  `[]string{groups[1+i]}` and the iterators are concatenated.
* `bygroupnames`: `byGroupNamesEmitter.Emit` (emitters.go:55-78) — if the
  match has no named groups beyond group 0, the emitter under key `"0"`
  (or `Error`) handles the whole match; otherwise groups `1..` are
  processed by name.  A `nil` emitter stored under key `"0"` makes Go call
  a method on a nil interface, a panic, hence `Except.error`.
* `using`: `usingEmitter.Emit` (emitters.go:161-167) — the stored lexer
  tokenises `groups[0]`; a tokenise error is `panic`ked.
* `usingself`: `usingSelfEmitter.Emit` (emitters.go:180-186) — same with
  `state.Lexer` and the stored start state.
* `func`: application of the underlying Go function value. -/
def Emitter.emit (env : EmitEnv) (e : Emitter) (groups : List String)
    (st : LexerState) : Except String (List Token) :=
  match e with
  | .token t => Except.ok (tokenTypeEmit t groups)
  | .bygroups es =>
    if (es.length : Int) ≠ (groups.length : Int) - 1 then
      Except.ok (tokenTypeEmit Error groups)
    else
      (emitPairs env es groups.tail st).map List.flatten
  | .bygroupnames es =>
    if (st.namedGroups.length : Int) - 1 = 0 then
      match h : List.lookup "0" es with
      | some (some e0) => Emitter.emit env e0 groups st
      | some none => Except.error "runtime error: nil emitter"
      | none => Except.ok (tokenTypeEmit Error groups)
    else
      (emitNames env es 1 (st.namedGroups.length - 1) st).map List.flatten
  | .using l =>
    match env.lexers l (groups.headD "") with
    | Except.ok it => Except.ok it
    | Except.error err => Except.error err
  | .usingself s =>
    match st.selfTokenise s (groups.headD "") with
    | Except.ok it => Except.ok it
    | Except.error err => Except.error err
  | .func k => env.funcs k groups st
termination_by (sizeOf e, 0)
decreasing_by
  all_goals simp_wf
  all_goals
    first
    | (apply Prod.Lex.left
       simp
       all_goals omega)
    | (apply Prod.Lex.left
       have hlt := lookup_sizeOf_lt _ _ _ h
       simp at hlt ⊢
       all_goals omega)

/-- The loop of `byGroupsEmitter.Emit` (emitters.go:35-39): pair the
emitters with `groups[1:]` positionally; a `nil` emitter contributes no
iterator at all. -/
def emitPairs (env : EmitEnv) (es : List (Option Emitter)) (gs : List String)
    (st : LexerState) : Except String (List (List Token)) :=
  match es, gs with
  | [], _ => Except.ok []
  | _ :: _, [] => Except.ok []
  | none :: es', _ :: gs' => emitPairs env es' gs' st
  | some e :: es', g :: gs' => do
    let ts ← Emitter.emit env e [g] st
    let rest ← emitPairs env es' gs' st
    Except.ok (ts :: rest)
termination_by (sizeOf es, 0)
decreasing_by
  all_goals simp_wf
  all_goals
    (apply Prod.Lex.left
     first
     | (simp
        all_goals omega)
     | omega)

/-- The loop of `byGroupNamesEmitter.Emit` (emitters.go:64-75): for group
numbers `i, i+1, …` (`n` of them) recover the group name from the rule's
regex, read the group's text from the named-group snapshot (a missing map
key reads as `""` in Go), and dispatch: an entry holding an emitter is
applied to that group's text alone, an entry holding `nil` is skipped,
and a missing entry produces `Error.Emit([]string{group}, state)`. -/
def emitNames (env : EmitEnv) (es : List (String × Option Emitter))
    (i n : Nat) (st : LexerState) : Except String (List (List Token)) :=
  match n with
  | 0 => Except.ok []
  | n' + 1 =>
    let groupName := st.ruleRegexGroupName i
    let group := (List.lookup groupName st.namedGroups).getD ""
    match h : List.lookup groupName es with
    | some (some e) => do
      let ts ← Emitter.emit env e [group] st
      let rest ← emitNames env es (i + 1) n' st
      Except.ok (ts :: rest)
    | some none => emitNames env es (i + 1) n' st
    | none => do
      let rest ← emitNames env es (i + 1) n' st
      Except.ok (tokenTypeEmit Error [group] :: rest)
termination_by (sizeOf es, n + 1)
decreasing_by
  all_goals simp_wf
  all_goals
    first
    | (exact Prod.Lex.right _ (by omega))
    | (apply Prod.Lex.left
       have hlt := lookup_sizeOf_lt _ _ _ h
       simp at hlt ⊢
       all_goals omega)

end

/-- The inner loop of `UsingByGroup`'s emitter (emitters.go:136-147).
`sublexer` is the result of `sublexerGetFunc(groups[sublexerNameGroup])`
(`nil` ⇒ `none`), abstracted — like every lexer here — to its
`Tokenise(nil, ·)` behaviour; `codeText` is `groups[codeGroup]`.  The loop
walks `groups[1:]` paired with the emitters.  At index
`i = codeGroup-1` (Go `int` arithmetic, hence the comparison in `Int`)
with a non-nil sublexer, the code group is tokenised by the sublexer and
a tokenise error is `panic`ked; otherwise a non-nil emitter handles its
own group's text, and a nil emitter leaves its slot empty (the slot
contributes no tokens). -/
def ubgLoop (env : EmitEnv) (st : LexerState)
    (sublexer : Option (String → Except String (List Token)))
    (codeGroup : Nat) (codeText : String) :
    List (Option Emitter) → List String → Nat → Except String (List (List Token))
  | [], _, _ => Except.ok []
  | _ :: _, [], _ => Except.ok []
  | oe :: es, g :: gs, i =>
    match sublexer, ((i : Int) == (codeGroup : Int) - 1 : Bool), oe with
    | some tok, true, _ => do
      let ts ← tok codeText
      let rest ← ubgLoop env st (some tok) codeGroup codeText es gs (i + 1)
      Except.ok (ts :: rest)
    | sl, _, some e => do
      let ts ← Emitter.emit env e [g] st
      let rest ← ubgLoop env st sl codeGroup codeText es gs (i + 1)
      Except.ok (ts :: rest)
    | sl, _, none => do
      let rest ← ubgLoop env st sl codeGroup codeText es gs (i + 1)
      Except.ok ([] :: rest)

/-- `UsingByGroup(sublexerGetFunc, sublexerNameGroup, codeGroup,
emitters...)`'s `Emit` (emitters.go:125-151).  An emitter/group count
mismatch `panic`s before anything is emitted; then the sublexer name is
read from `groups[sublexerNameGroup]` (a Go out-of-range index is a
panic) and resolved through `sublexerGetFunc`; then the loop builds one
iterator slot per capture group and the slots are concatenated. -/
def usingByGroupEmit (env : EmitEnv)
    (sublexerGetFunc : String → Option (String → Except String (List Token)))
    (sublexerNameGroup codeGroup : Nat) (emitters : List (Option Emitter))
    (groups : List String) (st : LexerState) : Except String (List Token) :=
  if (emitters.length : Int) ≠ (groups.length : Int) - 1 then
    Except.error "UsingByGroup expects number of emitters to be the same as len(groups)-1"
  else
    match groups.get? sublexerNameGroup with
    | none => Except.error "runtime error: index out of range"
    | some name =>
      (ubgLoop env st (sublexerGetFunc name) codeGroup (groups.getD codeGroup "")
        emitters groups.tail 0).map List.flatten

/-- Spec-side description of one by-groups slot (spec §4.2): the emitter for
a group receives exactly that group's text, and an absent (nil) emitter
contributes nothing. -/
def byGroupsPart (env : EmitEnv) (st : LexerState) :
    Option Emitter × String → Except String (List Token)
  | (some e, g) => Emitter.emit env e [g] st
  | (none, _) => Except.ok []

/-- Spec-side description of one by-group-names slot (spec §4.2): group
number `i` is resolved to its name and its text; a supplied emitter
receives exactly that text, a supplied-but-nil emitter is skipped, and a
missing entry yields an Error token for that group's text. -/
def byGroupNamesPart (env : EmitEnv) (st : LexerState)
    (es : List (String × Option Emitter)) (i : Nat) :
    Except String (List Token) :=
  let groupName := st.ruleRegexGroupName i
  let group := (List.lookup groupName st.namedGroups).getD ""
  match List.lookup groupName es with
  | some (some e) => Emitter.emit env e [group] st
  | some none => Except.ok []
  | none => Except.ok (tokenTypeEmit Error [group])

/-- Spec-side description of one using-by-group slot (spec §4.2/§4.3 of the
spec's emitter table): if the sublexer resolved, the code-group slot
holds the sublexer's token stream for the code text; every other slot —
and, when resolution failed, the code-group slot too — falls back to the
caller-supplied emitter for that position. -/
def usingByGroupPart (env : EmitEnv) (st : LexerState)
    (sublexer : Option (String → Except String (List Token)))
    (codeGroup : Nat) (codeText : String) :
    Nat × (Option Emitter × String) → Except String (List Token)
  | (i, slot) =>
    match sublexer with
    | some tok =>
      if (i : Int) = (codeGroup : Int) - 1 then tok codeText
      else byGroupsPart env st slot
    | none => byGroupsPart env st slot

/-- Effectful map over a list in `Except`, written with explicit structural
recursion so its unfolding equations are plain `rfl`s; spec-side
counterpart of building one iterator per slot and concatenating. -/
def mapME {ε α β : Type} (f : α → Except ε β) : List α → Except ε (List β)
  | [] => Except.ok []
  | a :: as => do
    let b ← f a
    let bs ← mapME f as
    Except.ok (b :: bs)

theorem emap_ok {ε α β : Type} (f : α → β) (x : α) :
    (Except.ok x : Except ε α).map f = Except.ok (f x) := rfl

theorem emap_error {ε α β : Type} (f : α → β) (e : ε) :
    (Except.error e : Except ε α).map f = Except.error e := rfl

theorem ebind_ok {ε α β : Type} (x : α) (f : α → Except ε β) :
    (Except.ok x >>= f) = f x := rfl

theorem ebind_error {ε α β : Type} (e : ε) (f : α → Except ε β) :
    ((Except.error e : Except ε α) >>= f) = Except.error e := rfl

theorem emitPairs_flatten (env : EmitEnv) (st : LexerState) :
    ∀ (es : List (Option Emitter)) (gs : List String),
      es.length = gs.length →
      (emitPairs env es gs st).map List.flatten
        = (mapME (byGroupsPart env st) (es.zip gs)).map List.flatten := by
  intro es
  induction es with
  | nil =>
    intro gs h
    simp [emitPairs, mapME]
  | cons oe es' ih =>
    intro gs h
    cases gs with
    | nil => simp at h
    | cons g gs' =>
      simp only [List.length_cons, Nat.succ.injEq] at h
      have ih' := ih gs' h
      cases oe with
      | none =>
        rw [List.zip_cons_cons]
        simp only [emitPairs, mapME, byGroupsPart, ebind_ok]
        cases hm : mapME (byGroupsPart env st) (es'.zip gs') with
        | error e =>
          rw [hm] at ih'
          simp only [emap_error, ebind_error] at ih' ⊢
          exact ih'
        | ok bs =>
          rw [hm] at ih'
          simp only [emap_ok, ebind_ok] at ih' ⊢
          simpa using ih'
      | some e =>
        rw [List.zip_cons_cons]
        simp only [emitPairs, mapME, byGroupsPart]
        cases he : Emitter.emit env e [g] st with
        | error err => simp only [ebind_error, emap_error]
        | ok ts =>
          simp only [ebind_ok]
          cases hp : emitPairs env es' gs' st with
          | error ep =>
            rw [hp] at ih'
            cases hm : mapME (byGroupsPart env st) (es'.zip gs') with
            | error em =>
              rw [hm] at ih'
              simp only [emap_error, Except.error.injEq] at ih'
              simp [ebind_error, emap_error, ih']
            | ok bs =>
              rw [hm] at ih'
              simp [emap_error, emap_ok] at ih'
          | ok v =>
            rw [hp] at ih'
            cases hm : mapME (byGroupsPart env st) (es'.zip gs') with
            | error em =>
              rw [hm] at ih'
              simp [emap_error, emap_ok] at ih'
            | ok bs =>
              rw [hm] at ih'
              simp only [emap_ok, Except.ok.injEq] at ih'
              simp [ebind_ok, emap_ok, ih']

theorem emitNames_flatten (env : EmitEnv) (st : LexerState)
    (es : List (String × Option Emitter)) :
    ∀ (n i : Nat),
      (emitNames env es i n st).map List.flatten
        = (mapME (byGroupNamesPart env st es) (List.range' i n)).map List.flatten := by
  intro n
  induction n with
  | zero =>
    intro i
    simp [emitNames, mapME, List.range']
  | succ n' ih =>
    intro i
    have hr : List.range' i (n' + 1) = i :: List.range' (i + 1) n' := rfl
    rw [hr]
    have ih' := ih (i + 1)
    simp only [emitNames]
    split
    · rename_i e heq
      simp only [mapME, byGroupNamesPart, heq]
      cases he : Emitter.emit env e
          [(List.lookup (st.ruleRegexGroupName i) st.namedGroups).getD ""] st with
      | error err => simp only [ebind_error, emap_error]
      | ok ts =>
        simp only [ebind_ok]
        cases hrec : emitNames env es (i + 1) n' st with
        | error e2 =>
          rw [hrec] at ih'
          cases hm : mapME (byGroupNamesPart env st es) (List.range' (i + 1) n') with
          | error em =>
            rw [hm] at ih'
            simp only [emap_error, Except.error.injEq] at ih'
            simp [ebind_error, emap_error, ih']
          | ok bs =>
            rw [hm] at ih'
            simp [emap_error, emap_ok] at ih'
        | ok v =>
          rw [hrec] at ih'
          cases hm : mapME (byGroupNamesPart env st es) (List.range' (i + 1) n') with
          | error em =>
            rw [hm] at ih'
            simp [emap_error, emap_ok] at ih'
          | ok bs =>
            rw [hm] at ih'
            simp only [emap_ok, Except.ok.injEq] at ih'
            simp [ebind_ok, emap_ok, ih']
    · rename_i heq
      simp only [mapME, byGroupNamesPart, heq, ebind_ok]
      cases hrec : emitNames env es (i + 1) n' st with
      | error e2 =>
        rw [hrec] at ih'
        cases hm : mapME (byGroupNamesPart env st es) (List.range' (i + 1) n') with
        | error em =>
          rw [hm] at ih'
          simp only [emap_error, Except.error.injEq] at ih'
          simp [ebind_error, emap_error, ih']
        | ok bs =>
          rw [hm] at ih'
          simp [emap_error, emap_ok] at ih'
      | ok v =>
        rw [hrec] at ih'
        cases hm : mapME (byGroupNamesPart env st es) (List.range' (i + 1) n') with
        | error em =>
          rw [hm] at ih'
          simp [emap_error, emap_ok] at ih'
        | ok bs =>
          rw [hm] at ih'
          simp only [emap_ok, Except.ok.injEq] at ih'
          simp [ebind_ok, emap_ok, ih']
    · rename_i heq
      simp only [mapME, byGroupNamesPart, heq, ebind_ok]
      cases hrec : emitNames env es (i + 1) n' st with
      | error e2 =>
        rw [hrec] at ih'
        cases hm : mapME (byGroupNamesPart env st es) (List.range' (i + 1) n') with
        | error em =>
          rw [hm] at ih'
          simp only [emap_error, Except.error.injEq] at ih'
          simp [ebind_error, emap_error, ih']
        | ok bs =>
          rw [hm] at ih'
          simp [emap_error, emap_ok] at ih'
      | ok v =>
        rw [hrec] at ih'
        cases hm : mapME (byGroupNamesPart env st es) (List.range' (i + 1) n') with
        | error em =>
          rw [hm] at ih'
          simp [emap_error, emap_ok] at ih'
        | ok bs =>
          rw [hm] at ih'
          simp only [emap_ok, Except.ok.injEq] at ih'
          simp [ebind_ok, emap_ok, ih']

theorem ubgLoop_eq_mapME (env : EmitEnv) (st : LexerState)
    (sl : Option (String → Except String (List Token)))
    (cg : Nat) (ct : String) :
    ∀ (es : List (Option Emitter)) (gs : List String) (i : Nat),
      es.length = gs.length →
      ubgLoop env st sl cg ct es gs i
        = mapME (usingByGroupPart env st sl cg ct) ((es.zip gs).enumFrom i) := by
  intro es
  induction es with
  | nil =>
    intro gs i h
    simp [ubgLoop, mapME, List.enumFrom]
  | cons oe es' ih =>
    intro gs i h
    cases gs with
    | nil => simp at h
    | cons g gs' =>
      simp only [List.length_cons, Nat.succ.injEq] at h
      rw [List.zip_cons_cons]
      have henum : ((oe, g) :: es'.zip gs').enumFrom i
          = (i, (oe, g)) :: (es'.zip gs').enumFrom (i + 1) := rfl
      rw [henum]
      simp only [mapME, usingByGroupPart]
      cases sl with
      | none =>
        cases oe with
        | none =>
          simp only [ubgLoop, byGroupsPart, ebind_ok]
          rw [ih gs' (i + 1) h]
        | some e =>
          simp only [ubgLoop, byGroupsPart]
          rw [ih gs' (i + 1) h]
      | some tok =>
        by_cases hc : (i : Int) = (cg : Int) - 1
        · have hcb : ((i : Int) == (cg : Int) - 1) = true := by
            simp [hc]
          simp only [ubgLoop, hcb, if_pos hc]
          rw [ih gs' (i + 1) h]
        · have hcb : ((i : Int) == (cg : Int) - 1) = false := by
            simp [hc]
          cases oe with
          | none =>
            simp only [ubgLoop, hcb, if_neg hc, byGroupsPart, ebind_ok]
            rw [ih gs' (i + 1) h]
          | some e =>
            simp only [ubgLoop, hcb, if_neg hc, byGroupsPart]
            rw [ih gs' (i + 1) h]

/-- A trivial concrete environment for witnesses: every lexer and every
type-erased emitter function yields an empty token stream. -/
def env0 : EmitEnv :=
  ⟨fun _ _ => Except.ok [], fun _ _ _ => Except.ok []⟩

/-- A trivial concrete per-run state for witnesses. -/
def st0 : LexerState :=
  ⟨[], fun _ => "", fun _ _ => Except.ok []⟩

/-- C2: if the number of supplied emitters does not equal the number of
capture groups of the match, `byGroupsEmitter.Emit` produces a normal
result (no panic) consisting of exactly one Error-category token whose
text is `groups[0]`, the whole match. -/
theorem byGroups_arity_mismatch_single_error_token (env : EmitEnv)
    (st : LexerState) (es : List (Option Emitter)) (groups : List String)
    (h : (es.length : Int) ≠ (groups.length : Int) - 1) :
    Emitter.emit env (.bygroups es) groups st
      = Except.ok [⟨Error, groups.headD ""⟩] := by
  simp only [Emitter.emit, if_pos h, tokenTypeEmit]

/-- Witness for C2: two capture groups but a single emitter. -/
theorem byGroups_arity_mismatch_single_error_token_witness :
    ((([some (Emitter.token Text)] : List (Option Emitter)).length : Int)
        ≠ ((["ab", "a", "b"] : List String).length : Int) - 1)
    ∧ Emitter.emit env0 (.bygroups [some (.token Text)]) ["ab", "a", "b"] st0
        = Except.ok [⟨Error, "ab"⟩] :=
  ⟨by decide,
   byGroups_arity_mismatch_single_error_token env0 st0
     [some (.token Text)] ["ab", "a", "b"] (by decide)⟩

/-- C3: when the emitter count equals the capture-group count, emitter `i`
is applied to capture group `i` alone (it receives exactly
`[groups[1+i]]`), an absent (`nil`) emitter contributes nothing, and the
per-group token streams are concatenated in group order — this is
`mapME byGroupsPart` over the positional pairing of emitters with
`groups[1:]`, flattened. -/
theorem byGroups_matched_per_group (env : EmitEnv) (st : LexerState)
    (es : List (Option Emitter)) (groups : List String)
    (h : (es.length : Int) = (groups.length : Int) - 1) :
    Emitter.emit env (.bygroups es) groups st
      = (mapME (byGroupsPart env st) (es.zip groups.tail)).map List.flatten := by
  have hlen : es.length = groups.tail.length := by
    cases groups with
    | nil => simp at h
    | cons g gs => simp at h ⊢; omega
  simp only [Emitter.emit, if_neg (not_not_intro h)]
  exact emitPairs_flatten env st es groups.tail hlen

/-- Witness for C3: three groups, the middle emitter absent. -/
theorem byGroups_matched_per_group_witness :
    ((([some (Emitter.token Text), none, some (Emitter.token Keyword)] :
          List (Option Emitter)).length : Int)
        = ((["abc", "a", "b", "c"] : List String).length : Int) - 1)
    ∧ Emitter.emit env0
        (.bygroups [some (.token Text), none, some (.token Keyword)])
        ["abc", "a", "b", "c"] st0
      = (mapME (byGroupsPart env0 st0)
          ([some (.token Text), none, some (.token Keyword)].zip
            ["abc", "a", "b", "c"].tail)).map List.flatten :=
  ⟨by decide,
   byGroups_matched_per_group env0 st0
     [some (.token Text), none, some (.token Keyword)]
     ["abc", "a", "b", "c"] (by decide)⟩

/-- C10: when the match carries no named capture groups (the named-group
snapshot holds only the whole-match entry `"0"`),
`byGroupNamesEmitter.Emit` produces exactly one iterator for the whole
match: the emitter registered under key `"0"` applied to the full
`groups`, or, with no such entry, a single Error-category token covering
`groups[0]`. -/
theorem byGroupNames_zero_named_groups (env : EmitEnv) (st : LexerState)
    (es : List (String × Option Emitter)) (groups : List String)
    (h : (st.namedGroups.length : Int) - 1 = 0) :
    (List.lookup "0" es = none →
      Emitter.emit env (.bygroupnames es) groups st
        = Except.ok [⟨Error, groups.headD ""⟩])
    ∧ (∀ e0, List.lookup "0" es = some (some e0) →
      Emitter.emit env (.bygroupnames es) groups st
        = Emitter.emit env e0 groups st) := by
  constructor
  · intro hl
    simp only [Emitter.emit, if_pos h]
    split
    · rename_i e0 heq; rw [hl] at heq; cases heq
    · rename_i heq; rw [hl] at heq; cases heq
    · simp [tokenTypeEmit]
  · intro e0 hl
    simp only [Emitter.emit, if_pos h]
    split
    · rename_i e1 heq
      rw [hl] at heq
      cases heq
      rfl
    · rename_i heq; rw [hl] at heq; cases heq
    · rename_i heq; rw [hl] at heq; cases heq

/-- A state whose match snapshot holds only the whole-match entry. -/
def stZeroNamed : LexerState :=
  ⟨[("0", "q")], fun _ => "", fun _ _ => Except.ok []⟩

/-- Witness for C10: the `"0"` entry exists and handles the whole match. -/
theorem byGroupNames_zero_named_groups_witness :
    ((stZeroNamed.namedGroups.length : Int) - 1 = 0)
    ∧ (List.lookup "0" [("0", some (Emitter.token Text))]
        = some (some (Emitter.token Text)))
    ∧ Emitter.emit env0 (.bygroupnames [("0", some (.token Text))]) ["q"]
        stZeroNamed
      = Emitter.emit env0 (.token Text) ["q"] stZeroNamed :=
  ⟨by decide, rfl,
   (byGroupNames_zero_named_groups env0 stZeroNamed
       [("0", some (.token Text))] ["q"] (by decide)).2
     (.token Text) rfl⟩

/-- C4: with at least one named capture group present,
`byGroupNamesEmitter.Emit` walks group numbers `1..`, and per group: a
supplied emitter receives exactly that group's text, a supplied-but-nil
emitter is skipped, and a group whose name has no entry in the map
yields an Error-category token covering that group's text while the walk
continues over the remaining groups; the per-group streams are
concatenated. -/
theorem byGroupNames_present_groups (env : EmitEnv) (st : LexerState)
    (es : List (String × Option Emitter)) (groups : List String)
    (h : 2 ≤ st.namedGroups.length) :
    Emitter.emit env (.bygroupnames es) groups st
      = (mapME (byGroupNamesPart env st es)
          (List.range' 1 (st.namedGroups.length - 1))).map List.flatten
    ∧ (∀ i, List.lookup (st.ruleRegexGroupName i) es = none →
        byGroupNamesPart env st es i
          = Except.ok [⟨Error,
              (List.lookup (st.ruleRegexGroupName i) st.namedGroups).getD ""⟩])
    ∧ (∀ i, List.lookup (st.ruleRegexGroupName i) es = some none →
        byGroupNamesPart env st es i = Except.ok []) := by
  refine ⟨?_, ?_, ?_⟩
  · have hcond : ¬ ((st.namedGroups.length : Int) - 1 = 0) := by omega
    simp only [Emitter.emit, if_neg hcond]
    exact emitNames_flatten env st es (st.namedGroups.length - 1) 1
  · intro i hl
    simp [byGroupNamesPart, hl, tokenTypeEmit]
  · intro i hl
    simp [byGroupNamesPart, hl]

/-- A state with one named capture group `a` (plus the whole match). -/
def stOneNamed : LexerState :=
  ⟨[("0", "xy"), ("a", "x")], fun i => if i = 1 then "a" else "",
   fun _ _ => Except.ok []⟩

/-- Witness for C4: the single named group has no entry in the (empty)
emitter map, so it yields one Error token with that group's text. -/
theorem byGroupNames_present_groups_witness :
    (2 ≤ stOneNamed.namedGroups.length)
    ∧ Emitter.emit env0 (.bygroupnames []) ["xy"] stOneNamed
        = (mapME (byGroupNamesPart env0 stOneNamed [])
            (List.range' 1 (stOneNamed.namedGroups.length - 1))).map
              List.flatten :=
  ⟨by decide,
   (byGroupNames_present_groups env0 stOneNamed [] ["xy"] (by decide)).1⟩

/-- C5: when the number of supplied fallback emitters does not equal the
number of capture groups, `UsingByGroup`'s emitter panics — the whole
operation fails with no tokens emitted — whereas on the same arity
mismatch the by-groups emitter recovers softly with a single
Error-category token. -/
theorem usingByGroup_arity_mismatch_fatal (env : EmitEnv)
    (get : String → Option (String → Except String (List Token)))
    (ng cg : Nat) (es : List (Option Emitter)) (groups : List String)
    (st : LexerState)
    (h : (es.length : Int) ≠ (groups.length : Int) - 1) :
    usingByGroupEmit env get ng cg es groups st
      = Except.error
          "UsingByGroup expects number of emitters to be the same as len(groups)-1"
    ∧ Emitter.emit env (.bygroups es) groups st
      = Except.ok [⟨Error, groups.headD ""⟩] := by
  constructor
  · simp only [usingByGroupEmit, if_pos h]
  · simp only [Emitter.emit, if_pos h, tokenTypeEmit]

/-- Witness for C5: two capture groups, one supplied emitter. -/
theorem usingByGroup_arity_mismatch_fatal_witness :
    ((([some (Emitter.token Text)] : List (Option Emitter)).length : Int)
        ≠ ((["ab", "a", "b"] : List String).length : Int) - 1)
    ∧ usingByGroupEmit env0 (fun _ => none) 1 2 [some (.token Text)]
        ["ab", "a", "b"] st0
      = Except.error
          "UsingByGroup expects number of emitters to be the same as len(groups)-1" :=
  ⟨by decide,
   (usingByGroup_arity_mismatch_fatal env0 (fun _ => none) 1 2
       [some (.token Text)] ["ab", "a", "b"] st0 (by decide)).1⟩

/-- C6: with matching counts, `UsingByGroup` reads the sub-grammar name
from its name group and resolves it; each slot of the output is then
described by `usingByGroupPart`: when resolution returns no tokenizer
every slot — the code group's included — is handled by the
caller-supplied fallback emitter for that position, and when it returns
a tokenizer the code-group slot carries that tokenizer's token stream
for the code group's text, spliced at the code group's position. -/
theorem usingByGroup_resolution (env : EmitEnv)
    (get : String → Option (String → Except String (List Token)))
    (ng cg : Nat) (es : List (Option Emitter)) (groups : List String)
    (st : LexerState) (name : String)
    (hlen : (es.length : Int) = (groups.length : Int) - 1)
    (hname : groups.get? ng = some name) :
    usingByGroupEmit env get ng cg es groups st
      = (mapME (usingByGroupPart env st (get name) cg (groups.getD cg ""))
          ((es.zip groups.tail).enumFrom 0)).map List.flatten
    ∧ (∀ i slot, get name = none →
        usingByGroupPart env st (get name) cg (groups.getD cg "") (i, slot)
          = byGroupsPart env st slot)
    ∧ (∀ (tok : String → Except String (List Token)) (i : Nat)
          (slot : Option Emitter × String),
        get name = some tok → (i : Int) = (cg : Int) - 1 →
        usingByGroupPart env st (get name) cg (groups.getD cg "") (i, slot)
          = tok (groups.getD cg "")) := by
  refine ⟨?_, ?_, ?_⟩
  · simp only [usingByGroupEmit, if_neg (not_not_intro hlen)]
    split
    · rename_i hnone
      rw [hname] at hnone
      cases hnone
    · rename_i nm heq
      rw [hname] at heq
      cases heq
      have hlen' : es.length = groups.tail.length := by
        cases groups with
        | nil => simp at hlen
        | cons g gs => simp at hlen ⊢; omega
      rw [ubgLoop_eq_mapME env st (get name) cg (groups.getD cg "")
        es groups.tail 0 hlen']
  · intro i slot hnone
    rw [hnone]
    rfl
  · intro tok i slot hsome hi
    rw [hsome]
    simp [usingByGroupPart, hi]

/-- A concrete resolver for the C6 witness: only `"py"` resolves, to a
sub-tokenizer emitting its whole input as one `Text` token. -/
def getPy : String → Option (String → Except String (List Token)) :=
  fun n => if n = "py" then some (fun s => Except.ok [⟨Text, s⟩]) else none

/-- Witness for C6: name group 1 holds `"py"`, code group 2 holds the code. -/
theorem usingByGroup_resolution_witness :
    ((([some (Emitter.token Keyword), some (Emitter.token Text)] :
          List (Option Emitter)).length : Int)
        = ((["all", "py", "code"] : List String).length : Int) - 1)
    ∧ (["all", "py", "code"].get? 1 = some "py")
    ∧ (usingByGroupEmit env0 getPy 1 2
          [some (.token Keyword), some (.token Text)] ["all", "py", "code"] st0
        = (mapME (usingByGroupPart env0 st0 (getPy "py") 2
              (["all", "py", "code"].getD 2 ""))
            (([some (Emitter.token Keyword), some (Emitter.token Text)].zip
                ["all", "py", "code"].tail).enumFrom 0)).map List.flatten
      ∧ (∀ i slot, getPy "py" = none →
          usingByGroupPart env0 st0 (getPy "py") 2
              (["all", "py", "code"].getD 2 "") (i, slot)
            = byGroupsPart env0 st0 slot)
      ∧ (∀ (tok : String → Except String (List Token)) (i : Nat)
            (slot : Option Emitter × String),
          getPy "py" = some tok → (i : Int) = ((2 : Nat) : Int) - 1 →
          usingByGroupPart env0 st0 (getPy "py") 2
              (["all", "py", "code"].getD 2 "") (i, slot)
            = tok (["all", "py", "code"].getD 2 ""))) :=
  ⟨by decide, rfl,
   usingByGroup_resolution env0 getPy 1 2
     [some (.token Keyword), some (.token Text)] ["all", "py", "code"] st0
     "py" (by decide) rfl⟩

/-- C7: when the delegated sub-tokenizer's `Tokenise` fails, both the
`using` and the `using-self` emitters propagate that failure as failure
of the whole operation — no local recovery, no Error-token
substitution. -/
theorem using_nested_failure_propagates (env : EmitEnv) (st : LexerState)
    (groups : List String) (l s msg : String) :
    (env.lexers l (groups.headD "") = Except.error msg →
      Emitter.emit env (.using l) groups st = Except.error msg)
    ∧ (st.selfTokenise s (groups.headD "") = Except.error msg →
      Emitter.emit env (.usingself s) groups st = Except.error msg) := by
  constructor
  · intro h
    simp only [Emitter.emit]
    rw [h]
  · intro h
    simp only [Emitter.emit]
    rw [h]

/-- An environment whose every nested tokenisation fails. -/
def envFail : EmitEnv :=
  ⟨fun _ _ => Except.error "boom", fun _ _ _ => Except.ok []⟩

/-- A state whose self-tokenisation fails. -/
def stFail : LexerState :=
  ⟨[], fun _ => "", fun _ _ => Except.error "boom"⟩

/-- Witness for C7 at a failing sub-tokenizer. -/
theorem using_nested_failure_propagates_witness :
    (envFail.lexers "python" "src" = Except.error "boom"
      ∧ Emitter.emit envFail (.using "python") ["src"] st0
          = Except.error "boom")
    ∧ (stFail.selfTokenise "root" "src" = Except.error "boom"
      ∧ Emitter.emit envFail (.usingself "root") ["src"] stFail
          = Except.error "boom") :=
  ⟨⟨rfl,
    (using_nested_failure_propagates envFail st0 ["src"] "python" "root"
        "boom").1 rfl⟩,
   ⟨rfl,
    (using_nested_failure_propagates envFail stFail ["src"] "python" "root"
        "boom").2 rfl⟩⟩

/-! ## The XML wire format (serialise.go)

Elements are modelled structurally: a tag, attributes in document order,
child elements in document order.  Text content, escaping and the textual
surface syntax are handled by Go `encoding/xml` and play no role in the
round-trip contract. -/

/-- One XML element. -/
inductive XmlElem : Type where
  | elem (tag : String) (attrs : List (String × String))
      (children : List XmlElem)

def XmlElem.tag : XmlElem → String
  | .elem t _ _ => t

def XmlElem.attrs : XmlElem → List (String × String)
  | .elem _ a _ => a

def XmlElem.children : XmlElem → List XmlElem
  | .elem _ _ c => c

/-- First attribute with the given name (Rule.UnmarshalXML reads the first
`pattern` attribute, serialise.go:103-107). -/
def getAttr (el : XmlElem) (name : String) : Option String :=
  (el.attrs.find? (fun p => p.1 == name)).map (fun p => p.2)

/-- `TokenType.MarshalXML` (serialise.go:192-198): append a `type` attribute
holding `t.String()` to the given start element; no children. -/
def tokenTypeMarshal (t : TokenType) (tag : String)
    (attrs : List (String × String)) : XmlElem :=
  .elem tag (attrs ++ [("type", tokenString t)]) []

/-- `TokenType.UnmarshalXML` (serialise.go:178-190): read the `type`
attribute and scan `_TokenType_map` for an entry with that name; an
unknown name is a hard decode error, never a default value. -/
def tokenTypeUnmarshal (el : XmlElem) : Except String TokenType :=
  let name := (getAttr el "type").getD ""
  match tokenTypeOfName name with
  | some tt => Except.ok tt
  | none => Except.error ("unknown TokenType \"" ++ name ++ "\"")

/-- `EmitterKind()` of each serialisable emitter variant (emitters.go:27,
53, 159, 178 and the `token` kind of a bare `TokenType`); `none` for a
type-erased `EmitterFunc`, which does not implement
`SerialisableEmitter`. -/
def Emitter.kind : Emitter → Option String
  | .token _ => some "token"
  | .bygroups _ => some "bygroups"
  | .bygroupnames _ => some "bygroupnames"
  | .using _ => some "using"
  | .usingself _ => some "usingself"
  | .func _ => none

/-- The keys of `emitterTemplates` (serialise.go:48-60). -/
def emitterKinds : List String :=
  ["bygroups", "bygroupnames", "using", "usingself", "token"]

/-- The keys of `mutatorTemplates` (serialise.go:62-74). -/
def mutatorKinds : List String :=
  ["include", "combined", "multi", "push", "pop"]

mutual

/-- `e.EncodeElement(emitter, start)` (serialise.go:90) under Go
`encoding/xml` semantics: a `TokenType` uses its custom marshaler; a
`byGroupsEmitter` is a struct whose `Emitters []Emitter xml:"emit"` field
marshals each non-nil element under tag `emit` (nil interface elements
are skipped by the encoder); a `byGroupNamesEmitter` is a struct with a
`map[string]Emitter` field and `encoding/xml` has no map support, so
encoding fails with an `UnsupportedTypeError`; `usingEmitter` and
`usingSelfEmitter` are structs with a single `,attr` field (the
unexported `lexer` field is not serialised); a plain function value is
likewise an unsupported type. -/
def encodeEmitterAs (e : Emitter) (tag : String) : Except String XmlElem :=
  match e with
  | .token t => Except.ok (tokenTypeMarshal t tag [])
  | .bygroups es => (encodeEmitterItems es).map (fun cs => .elem tag [] cs)
  | .bygroupnames _ =>
    Except.error "xml: unsupported type: map[string]chroma.Emitter"
  | .using l => Except.ok (.elem tag [("lexer", l)] [])
  | .usingself s => Except.ok (.elem tag [("state", s)] [])
  | .func _ => Except.error "xml: unsupported type: chroma.EmitterFunc"

/-- The `Emitters` slice of a `byGroupsEmitter`: each non-nil element
marshalled under the field's tag `emit`, in order. -/
def encodeEmitterItems : List (Option Emitter) → Except String (List XmlElem)
  | [] => Except.ok []
  | none :: es => encodeEmitterItems es
  | some e :: es => do
    let x ← encodeEmitterAs e "emit"
    let xs ← encodeEmitterItems es
    Except.ok (x :: xs)

end

/-- `d.DecodeElement(target, &token)` for each emitter template kind
(serialise.go:117-125), under Go `encoding/xml` semantics.  `"token"`
runs the custom `TokenType.UnmarshalXML`.  For `"bygroups"` the decoder
appends one slice element per `emit` child, then — the element type
being an interface — skips the child's content and leaves the appended
value nil (encoding/xml `read.go` ignores interface-typed destinations);
other children are ignored.  For `"bygroupnames"` a child matching the
`emitters` field would have to be unmarshalled into a map, an
unsupported destination type; with no such child the map field stays
nil.  `"using"` and `"usingself"` read their single attribute. -/
def decodeEmitterOfKind (kind : String) (el : XmlElem) :
    Except String Emitter :=
  if kind = "token" then
    (tokenTypeUnmarshal el).map Emitter.token
  else if kind = "bygroups" then
    Except.ok (.bygroups
      (el.children.filterMap (fun c =>
        if c.tag == "emit" then some none else none)))
  else if kind = "bygroupnames" then
    if el.children.any (fun c => c.tag == "emitters") then
      Except.error "unknown type map[string]chroma.Emitter"
    else
      Except.ok (.bygroupnames [])
  else if kind = "using" then
    Except.ok (.using ((getAttr el "lexer").getD ""))
  else if kind = "usingself" then
    Except.ok (.usingself ((getAttr el "state").getD ""))
  else
    Except.error ("unknown emitter kind " ++ kind)

/-- `MutatorKind()` of each named mutator variant; `none` for a type-erased
mutator function, which is not serialisable. -/
def Mutator.kind : Mutator → Option String
  | .push _ => some "push"
  | .pop _ => some "pop"
  | .includeM _ => some "include"
  | .combined _ => some "combined"
  | .multi _ => some "multi"
  | .mfunc _ => none

/-- A `<state name="..."/>` child's name, if the element is one. -/
def stateNameAttr (c : XmlElem) : Option String :=
  if c.tag == "state" then some ((getAttr c "name").getD "") else none

mutual

/-- Modelled from the spec: the wire form of the named mutator variants —
`mutators.go` and its field tags are not in the examined source, and
spec §6 fixes only that the element tag names the variant
(push/pop/include/combined/multi) and that encoding preserves the
variant's parameters.  Scalar state names ride as a `state` attribute
(matching serialise.go's format comment, `<include state="String"/>`),
state lists as `state` children, `pop`'s depth by repetition (the
concrete numeral syntax on the wire is abstracted), and `multi` nests
its sub-mutators.  A type-erased mutator function is not encodable. -/
def encodeMutator : Mutator → Option XmlElem
  | .push states =>
    some (.elem "push" []
      (states.map (fun s => .elem "state" [("name", s)] [])))
  | .pop depth =>
    some (.elem "pop" [] (List.replicate depth (.elem "depth" [] [])))
  | .includeM state => some (.elem "include" [("state", state)] [])
  | .combined states =>
    some (.elem "combined" []
      (states.map (fun s => .elem "state" [("name", s)] [])))
  | .multi ms => some (.elem "multi" [] (encodeMutatorItems ms))
  | .mfunc _ => none

/-- Encode a list of sub-mutators, omitting non-serialisable entries. -/
def encodeMutatorItems : List Mutator → List XmlElem
  | [] => []
  | m :: ms =>
    match encodeMutator m with
    | some x => x :: encodeMutatorItems ms
    | none => encodeMutatorItems ms

end

theorem children_sizeOf_lt (el : XmlElem) : sizeOf el.children < sizeOf el := by
  cases el with
  | elem t a c =>
    simp [XmlElem.children] <;> omega

mutual

/-- Modelled from the spec: decoding of a named mutator variant from its
kind tag (serialise.go:126-135 dispatches through `mutatorTemplates`);
inverse of `encodeMutator`. -/
def decodeMutatorOfKind (kind : String) (el : XmlElem) :
    Except String Mutator :=
  if kind = "push" then
    Except.ok (.push (el.children.filterMap stateNameAttr))
  else if kind = "pop" then
    Except.ok (.pop
      ((el.children.filter (fun c => c.tag == "depth")).length))
  else if kind = "include" then
    Except.ok (.includeM ((getAttr el "state").getD ""))
  else if kind = "combined" then
    Except.ok (.combined (el.children.filterMap stateNameAttr))
  else if kind = "multi" then
    (decodeMutatorItems el.children).map Mutator.multi
  else
    Except.error ("unknown mutator kind " ++ kind)
termination_by sizeOf el
decreasing_by
  all_goals simp_wf
  all_goals exact children_sizeOf_lt el

/-- Decode the children of a `multi` element: each child with a known
mutator tag decodes recursively; other children are ignored. -/
def decodeMutatorItems (items : List XmlElem) :
    Except String (List Mutator) :=
  match items with
  | [] => Except.ok []
  | c :: cs =>
    if mutatorKinds.contains c.tag then do
      let m ← decodeMutatorOfKind c.tag c
      let ms ← decodeMutatorItems cs
      Except.ok (m :: ms)
    else
      decodeMutatorItems cs
termination_by sizeOf items
decreasing_by
  all_goals simp_wf
  all_goals omega

end

/-- `chroma.Rule`: `{Pattern string; Type Emitter; Mutator Mutator}`; nil
interface fields become `none`. -/
structure Rule where
  pattern : String
  type : Option Emitter
  mutator : Option Mutator

/-- `Rule.MarshalXML` (serialise.go:76-100): a `rule` element with a
`pattern` attribute only for a non-empty pattern; then the emitter —
only if it is a `SerialisableEmitter` (a type-erased function is
silently omitted) — encoded under its kind's tag; then likewise the
mutator. -/
def encodeRule (r : Rule) : Except String XmlElem := do
  let attrs := if r.pattern ≠ "" then [("pattern", r.pattern)] else []
  let ec ← match r.type with
    | some e =>
      match e.kind with
      | some k => (encodeEmitterAs e k).map (fun x => [x])
      | none => pure ([] : List XmlElem)
    | none => pure ([] : List XmlElem)
  let mc := match r.mutator with
    | some m =>
      match encodeMutator m with
      | some x => [x]
      | none => []
    | none => []
  Except.ok (.elem "rule" attrs (ec ++ mc))

/-- The child loop of `Rule.UnmarshalXML` (serialise.go:109-140): a child
whose tag is a known emitter kind decodes into the rule's emitter (a
second one is a `duplicate emitter` error); a known mutator kind decodes
into the mutator likewise; any other child is ignored. -/
def decodeRuleChildren : List XmlElem → Option Emitter → Option Mutator →
    Except String (Option Emitter × Option Mutator)
  | [], t, m => Except.ok (t, m)
  | c :: cs, t, m =>
    if emitterKinds.contains c.tag then
      match t with
      | some _ => Except.error ("duplicate emitter \"" ++ c.tag ++ "\"")
      | none => do
        let e ← decodeEmitterOfKind c.tag c
        decodeRuleChildren cs (some e) m
    else if mutatorKinds.contains c.tag then
      match m with
      | some _ => Except.error ("duplicate mutator \"" ++ c.tag ++ "\"")
      | none => do
        let mm ← decodeMutatorOfKind c.tag c
        decodeRuleChildren cs t (some mm)
    else
      decodeRuleChildren cs t m

/-- `Rule.UnmarshalXML` (serialise.go:102-141). -/
def decodeRule (el : XmlElem) : Except String Rule := do
  let tm ← decodeRuleChildren el.children none none
  Except.ok ⟨(getAttr el "pattern").getD "", tm.1, tm.2⟩

/-- `chroma.Rules` — the map from state name to rule list, modelled as an
association list.  `Rules.MarshalXML` (serialise.go:152-161) walks the
map in its (arbitrary) iteration order, which the list order here
stands for; `Rules.UnmarshalXML` (serialise.go:163-172) rebuilds the map
entry by entry, so map equality does not depend on that order. -/
abbrev Rules := List (String × List Rule)

/-- One `xmlRuleState` on the encode side (serialise.go:143-146, 152-161):
a `state` element with a `name` attribute and the state's rules as
children. -/
def encodeStateElem (p : String × List Rule) : Except String XmlElem := do
  let children ← mapME encodeRule p.2
  Except.ok (XmlElem.elem "state" [("name", p.1)] children)

/-- One `xmlRuleState` on the decode side: the `name` attribute and the
`rule` children (other children are ignored by the struct decoder). -/
def decodeStateElem (st : XmlElem) : Except String (String × List Rule) := do
  let rules ← mapME decodeRule
    (st.children.filter (fun c => c.tag == "rule"))
  Except.ok ((getAttr st "name").getD "", rules)

/-- `Rules.MarshalXML` (serialise.go:152-161): a `rules` element holding
one `state` element per map entry. -/
def encodeRules (rs : Rules) : Except String XmlElem := do
  let states ← mapME encodeStateElem rs
  Except.ok (.elem "rules" [] states)

/-- `Rules.UnmarshalXML` (serialise.go:163-172): decode the `state`
children, each contributing one map entry. -/
def decodeRules (el : XmlElem) : Except String Rules :=
  mapME decodeStateElem (el.children.filter (fun c => c.tag == "state"))

/-- Encode a rule table, then decode the result. -/
def roundTripRules (rs : Rules) : Except String Rules :=
  match encodeRules rs with
  | Except.ok el => decodeRules el
  | Except.error e => Except.error e

/-- The emitter shapes whose encode/decode pair is lossless: direct token
types carrying a canonical name, `using`, and `usingself`.  By-groups
and by-group-names emitters are not in this class (see the round-trip
counterexample), nor are type-erased functions. -/
def Emitter.xmlSafe : Emitter → Bool
  | .token t => tokenTypeOfName (tokenString t) == some t
  | .using _ => true
  | .usingself _ => true
  | _ => false

mutual

/-- The named (serialisable) mutator shapes: everything except a
type-erased mutator function, recursively through `multi`. -/
def Mutator.xmlSafe : Mutator → Bool
  | .push _ => true
  | .pop _ => true
  | .includeM _ => true
  | .combined _ => true
  | .multi ms => mutatorsXmlSafe ms
  | .mfunc _ => false

def mutatorsXmlSafe : List Mutator → Bool
  | [] => true
  | m :: ms => Mutator.xmlSafe m && mutatorsXmlSafe ms

end

/-- A rule built from serialisable, losslessly-encodable pieces. -/
def Rule.xmlSafe (r : Rule) : Bool :=
  (match r.type with
   | some e => e.xmlSafe
   | none => true)
  && (match r.mutator with
      | some m => m.xmlSafe
      | none => true)

/-- A rule table built from such rules. -/
def Rules.xmlSafe (rs : Rules) : Bool :=
  rs.all (fun p => p.2.all Rule.xmlSafe)

theorem stateNames_roundtrip (states : List String) :
    List.filterMap
        (stateNameAttr ∘ fun s => XmlElem.elem "state" [("name", s)] [])
        states = states := by
  induction states with
  | nil => rfl
  | cons s ss ih =>
    simp [List.filterMap_cons, stateNameAttr, getAttr, XmlElem.tag,
      XmlElem.attrs, ih]

theorem depth_roundtrip (d : Nat) :
    ((List.replicate d (XmlElem.elem "depth" [] [])).filter
      (fun c => c.tag == "depth")).length = d := by
  induction d with
  | zero => rfl
  | succ n ih =>
    rw [List.replicate_succ, List.filter_cons]
    simp [XmlElem.tag, ih]

mutual

/-- Each named mutator shape encodes to an element tagged with its kind —
a mutator tag, not an emitter tag — and decoding that element by its
tag reproduces the mutator exactly. -/
theorem mutator_roundtrip (m : Mutator) (hs : Mutator.xmlSafe m = true) :
    ∃ el, encodeMutator m = some el
      ∧ mutatorKinds.contains el.tag = true
      ∧ emitterKinds.contains el.tag = false
      ∧ decodeMutatorOfKind el.tag el = Except.ok m := by
  cases m with
  | push states =>
    refine ⟨_, rfl, rfl, rfl, ?_⟩
    simp [decodeMutatorOfKind, XmlElem.tag, XmlElem.children,
      stateNames_roundtrip]
  | pop d =>
    refine ⟨_, rfl, rfl, rfl, ?_⟩
    simp [decodeMutatorOfKind, XmlElem.tag, XmlElem.children,
      depth_roundtrip]
  | includeM state =>
    refine ⟨_, rfl, rfl, rfl, ?_⟩
    simp [decodeMutatorOfKind, XmlElem.tag, getAttr, XmlElem.attrs]
  | combined states =>
    refine ⟨_, rfl, rfl, rfl, ?_⟩
    simp [decodeMutatorOfKind, XmlElem.tag, XmlElem.children,
      stateNames_roundtrip]
  | multi ms =>
    have hms : mutatorsXmlSafe ms = true := by
      simpa [Mutator.xmlSafe] using hs
    refine ⟨_, rfl, rfl, rfl, ?_⟩
    simp [decodeMutatorOfKind, XmlElem.tag, XmlElem.children,
      mutatorItems_roundtrip ms hms, emap_ok]
  | mfunc i =>
    simp [Mutator.xmlSafe] at hs

/-- Encoding a list of named sub-mutators and decoding the children
reproduces the list. -/
theorem mutatorItems_roundtrip (ms : List Mutator)
    (hs : mutatorsXmlSafe ms = true) :
    decodeMutatorItems (encodeMutatorItems ms) = Except.ok ms := by
  cases ms with
  | nil => simp [encodeMutatorItems, decodeMutatorItems]
  | cons m ms' =>
    have hsplit : Mutator.xmlSafe m = true ∧ mutatorsXmlSafe ms' = true := by
      simpa [mutatorsXmlSafe, Bool.and_eq_true] using hs
    obtain ⟨el, henc, hmk, _, hdec⟩ := mutator_roundtrip m hsplit.1
    have hrest := mutatorItems_roundtrip ms' hsplit.2
    rw [show encodeMutatorItems (m :: ms')
      = match encodeMutator m with
        | some x => x :: encodeMutatorItems ms'
        | none => encodeMutatorItems ms' from rfl]
    rw [henc]
    have hmem : el.tag ∈ mutatorKinds := by simpa using hmk
    simp [decodeMutatorItems, hmem, hdec, hrest, ebind_ok]

end

theorem emitter_roundtrip (e : Emitter) (k : String)
    (hs : Emitter.xmlSafe e = true) (hk : Emitter.kind e = some k) :
    ∃ el, encodeEmitterAs e k = Except.ok el
      ∧ el.tag = k
      ∧ emitterKinds.contains k = true
      ∧ mutatorKinds.contains k = false
      ∧ decodeEmitterOfKind k el = Except.ok e := by
  rcases e with t | es | es | l | s | i
  · have hkk : k = "token" := by
      simp [Emitter.kind] at hk
      exact hk.symm
    subst hkk
    have hname : tokenTypeOfName (tokenString t) = some t := by
      simpa [Emitter.xmlSafe] using hs
    refine ⟨tokenTypeMarshal t "token" [], by simp [encodeEmitterAs],
      rfl, rfl, rfl, ?_⟩
    simp [decodeEmitterOfKind, tokenTypeUnmarshal, tokenTypeMarshal,
      getAttr, XmlElem.attrs, hname, emap_ok]
  · simp [Emitter.xmlSafe] at hs
  · simp [Emitter.xmlSafe] at hs
  · have hkk : k = "using" := by
      simp [Emitter.kind] at hk
      exact hk.symm
    subst hkk
    refine ⟨XmlElem.elem "using" [("lexer", l)] [],
      by simp [encodeEmitterAs], rfl, rfl, rfl, ?_⟩
    simp [decodeEmitterOfKind, getAttr, XmlElem.attrs]
  · have hkk : k = "usingself" := by
      simp [Emitter.kind] at hk
      exact hk.symm
    subst hkk
    refine ⟨XmlElem.elem "usingself" [("state", s)] [],
      by simp [encodeEmitterAs], rfl, rfl, rfl, ?_⟩
    simp [decodeEmitterOfKind, getAttr, XmlElem.attrs]
  · simp [Emitter.xmlSafe] at hs

theorem emitter_kind_exists (e : Emitter) (hs : Emitter.xmlSafe e = true) :
    ∃ k, Emitter.kind e = some k := by
  rcases e with t | es | es | l | s | i <;>
    first
    | exact ⟨_, rfl⟩
    | simp [Emitter.xmlSafe] at hs

theorem pattern_attr_roundtrip (p : String) (cs : List XmlElem) :
    (getAttr
      (XmlElem.elem "rule" (if p = "" then [] else [("pattern", p)]) cs)
      "pattern").getD "" = p := by
  by_cases hp : p = ""
  · simp [getAttr, XmlElem.attrs, hp]
  · simp [getAttr, XmlElem.attrs, hp]

/-- A rule made of serialisable pieces encodes to a `rule` element from
which decoding recovers the rule exactly: the pattern attribute, the
emitter child and the mutator child all round-trip. -/
theorem rule_roundtrip (r : Rule) (hs : Rule.xmlSafe r = true) :
    ∃ el, encodeRule r = Except.ok el
      ∧ el.tag = "rule"
      ∧ decodeRule el = Except.ok r := by
  obtain ⟨p, t, m⟩ := r
  simp only [Rule.xmlSafe, Bool.and_eq_true] at hs
  obtain ⟨hst, hsm⟩ := hs
  cases t with
  | none =>
    cases m with
    | none =>
      refine ⟨XmlElem.elem "rule"
        (if p ≠ "" then [("pattern", p)] else []) [], ?_, rfl, ?_⟩
      · simp [encodeRule]
      · simp [decodeRule, decodeRuleChildren, XmlElem.children,
          pattern_attr_roundtrip, ebind_ok]
    | some mm =>
      obtain ⟨mel, hencm, hmk, hemk, hdecm⟩ := mutator_roundtrip mm hsm
      have hmmem : mel.tag ∈ mutatorKinds := by simpa using hmk
      have hemem : mel.tag ∉ emitterKinds := by simpa using hemk
      refine ⟨XmlElem.elem "rule"
        (if p ≠ "" then [("pattern", p)] else []) [mel], ?_, rfl, ?_⟩
      · simp [encodeRule, hencm]
      · simp [decodeRule, decodeRuleChildren, XmlElem.children,
          hemk, hemem, hmk, hmmem, hdecm, pattern_attr_roundtrip, ebind_ok]
  | some e =>
    obtain ⟨k, hk⟩ := emitter_kind_exists e hst
    obtain ⟨eel, hence, htag, hek, hmkf, hdece⟩ := emitter_roundtrip e k hst hk
    have hekmem : k ∈ emitterKinds := by simpa using hek
    cases m with
    | none =>
      refine ⟨XmlElem.elem "rule"
        (if p ≠ "" then [("pattern", p)] else []) [eel], ?_, rfl, ?_⟩
      · simp [encodeRule, hk, hence, emap_ok, ebind_ok]
      · rw [← htag] at hek hekmem hdece
        simp [decodeRule, decodeRuleChildren, XmlElem.children,
          hek, hekmem, hdece, pattern_attr_roundtrip, ebind_ok]
    | some mm =>
      obtain ⟨mel, hencm, hmk, hemk, hdecm⟩ := mutator_roundtrip mm hsm
      have hmmem : mel.tag ∈ mutatorKinds := by simpa using hmk
      have hemem : mel.tag ∉ emitterKinds := by simpa using hemk
      refine ⟨XmlElem.elem "rule"
        (if p ≠ "" then [("pattern", p)] else []) [eel, mel], ?_, rfl, ?_⟩
      · simp [encodeRule, hk, hence, hencm, emap_ok, ebind_ok]
      · rw [← htag] at hek hekmem hdece
        simp [decodeRule, decodeRuleChildren, XmlElem.children,
          hek, hekmem, hemk, hemem, hmk, hmmem, hdece, hdecm,
          pattern_attr_roundtrip, ebind_ok]

/-- Encoding a list of serialisable rules yields `rule` elements from which
the rules decode back in order. -/
theorem ruleList_roundtrip (rules : List Rule)
    (hs : rules.all Rule.xmlSafe = true) :
    ∃ els, mapME encodeRule rules = Except.ok els
      ∧ els.filter (fun c => c.tag == "rule") = els
      ∧ mapME decodeRule els = Except.ok rules := by
  induction rules with
  | nil => exact ⟨[], rfl, rfl, rfl⟩
  | cons r rest ih =>
    simp only [List.all_cons, Bool.and_eq_true] at hs
    obtain ⟨el, hencr, htag, hdecr⟩ := rule_roundtrip r hs.1
    obtain ⟨els, hencs, hfil, hdecs⟩ := ih hs.2
    refine ⟨el :: els, ?_, ?_, ?_⟩
    · simp [mapME, hencr, hencs, ebind_ok]
    · simp [List.filter_cons, htag, hfil]
    · simp [mapME, hdecr, hdecs, ebind_ok]

/-- Encoding the state list of a serialisable table yields `state` elements
from which the states decode back, names and rules intact. -/
theorem statesList_roundtrip (rs : Rules) (hs : Rules.xmlSafe rs = true) :
    ∃ els,
      mapME encodeStateElem rs = Except.ok els
      ∧ els.filter (fun c => c.tag == "state") = els
      ∧ mapME decodeStateElem els = Except.ok rs := by
  induction rs with
  | nil => exact ⟨[], rfl, rfl, rfl⟩
  | cons p rest ih =>
    simp only [Rules.xmlSafe, List.all_cons, Bool.and_eq_true] at hs
    obtain ⟨rEls, hencr, hfilr, hdecr⟩ := ruleList_roundtrip p.2 hs.1
    obtain ⟨els, hencs, hfils, hdecs⟩ := ih (by
      simpa [Rules.xmlSafe] using hs.2)
    have hhead : encodeStateElem p
        = Except.ok (XmlElem.elem "state" [("name", p.1)] rEls) := by
      simp [encodeStateElem, hencr, ebind_ok]
    have hheadDec : decodeStateElem (XmlElem.elem "state" [("name", p.1)] rEls)
        = Except.ok p := by
      simp [decodeStateElem, XmlElem.children, hfilr, hdecr, ebind_ok,
        getAttr, XmlElem.attrs]
    refine ⟨XmlElem.elem "state" [("name", p.1)] rEls :: els, ?_, ?_, ?_⟩
    · simp [mapME, hhead, hencs, ebind_ok]
    · simp only [List.filter_cons]
      rw [show ((XmlElem.elem "state" [("name", p.1)] rEls).tag == "state")
        = true from rfl]
      simp [hfils]
    · simp [mapME, hheadDec, hdecs, ebind_ok]

/-- C1 (amended): for rule tables whose emitters are direct token types
with canonical names, `using`, or `using-self`, and whose mutators are
the named variants, encoding to the XML wire format and decoding back
reproduces the table exactly — same state names, same rule order per
state, same pattern strings, same emitter/mutator variant and
parameters.  (Tables containing by-groups or by-group-names emitters are
excluded: the decoder loses their nested emitters — see the
counterexample — and the by-group-names map does not encode at all.) -/
theorem rules_roundtrip_serialisable (rs : Rules)
    (hs : Rules.xmlSafe rs = true) :
    roundTripRules rs = Except.ok rs := by
  obtain ⟨els, hencs, hfils, hdecs⟩ := statesList_roundtrip rs hs
  have henc : encodeRules rs = Except.ok (XmlElem.elem "rules" [] els) := by
    simp [encodeRules, hencs, ebind_ok]
  simp [roundTripRules, henc, decodeRules, XmlElem.children, hfils, hdecs]

/-- A small table exercising every lossless piece: token emitters, push,
pop, include, combined, multi — patterned on the repository's own
serialisation tests. -/
def wTable : Rules :=
  [("root",
    [⟨"\\d+", some (.token Text), none⟩,
     ⟨"\"", some (.token LiteralString), some (.push ["String"])⟩,
     ⟨"", none, some (.includeM "Expression")⟩,
     ⟨"x", some (.using "python"), some (.multi [.pop 2, .push ["a", "b"]])⟩,
     ⟨"y", some (.usingself "root"), some (.combined ["a", "b"])⟩]),
   ("String", [⟨"[^\"]+", some (.token LiteralString), some (.pop 1)⟩])]

/-- Witness for C1 (amended): the table above round-trips. -/
theorem rules_roundtrip_serialisable_witness :
    Rules.xmlSafe wTable = true
    ∧ roundTripRules wTable = Except.ok wTable :=
  ⟨by decide, rules_roundtrip_serialisable wTable (by decide)⟩

/-- A one-rule table whose emitter is `ByGroups(Text)`. -/
def bgTable : Rules :=
  [("root", [⟨"(x)", some (.bygroups [some (.token Text)]), none⟩])]

theorem bgTable_roundtrip_eq :
    roundTripRules bgTable
      = Except.ok [("root", [⟨"(x)", some (.bygroups [none]), none⟩])] := by
  simp [roundTripRules, bgTable, encodeRules, decodeRules,
    encodeStateElem, decodeStateElem, encodeRule,
    decodeRule, mapME, encodeEmitterAs, encodeEmitterItems,
    tokenTypeMarshal, tokenString, TokenType_map, decodeRuleChildren,
    decodeEmitterOfKind, emitterKinds, mutatorKinds, getAttr,
    XmlElem.tag, XmlElem.attrs, XmlElem.children, Emitter.kind,
    tokenTypeUnmarshal, tokenTypeOfName, Text, ebind_ok, emap_ok,
    List.filter_cons, List.filterMap_cons]

/-- C1 (counterexample): the claim fails as stated — `bgTable` uses only
named serialisable variants (`byGroupsEmitter` implements
`SerialisableEmitter`), yet decoding the encoded table does not
reproduce it: the XML decoder cannot rebuild the interface-typed
`Emitters` slice of the by-groups emitter, so `ByGroups(Text)` comes
back as `ByGroups(nil)` — the nested emitter parameter is lost. -/
theorem rules_roundtrip_counterexample :
    roundTripRules bgTable ≠ Except.ok bgTable := by
  rw [bgTable_roundtrip_eq]
  intro h
  simp [bgTable] at h

theorem lookup_eq_of_mem {β : Type} :
    ∀ (l : List (Int × β)) (p : Int × β),
      p ∈ l → (l.map Prod.fst).Nodup → List.lookup p.1 l = some p.2 := by
  intro l
  induction l with
  | nil => intro p hmem _; cases hmem
  | cons q rest ih =>
    intro p hmem hnd
    obtain ⟨q1, q2⟩ := q
    simp only [List.map_cons, List.nodup_cons] at hnd
    rcases List.mem_cons.mp hmem with heq | hmem'
    · subst heq
      simp [List.lookup]
    · have hne : (p.1 == q1) = false := by
        rw [beq_eq_false_iff_ne]
        intro he
        exact hnd.1 (he ▸ List.mem_map_of_mem Prod.fst hmem')
      simp only [List.lookup, hne]
      exact ih p hmem' hnd.2

/-- The canonical-name table inverts: a successful reverse lookup by name
recovers a value whose `String()` is that very name. -/
theorem tokenName_inverse (name : String) (tt : TokenType)
    (h : tokenTypeOfName name = some tt) : tokenString tt = name := by
  unfold tokenTypeOfName at h
  cases hf : TokenType_map.find? (fun q => q.2 == name) with
  | none => rw [hf] at h; cases h
  | some p =>
    rw [hf] at h
    simp only [Option.map_some', Option.some.injEq] at h
    have hsat := List.find?_some hf
    have hmem : p ∈ TokenType_map := List.mem_of_find?_eq_some hf
    have hname : p.2 = name := by simpa using hsat
    have hl := lookup_eq_of_mem TokenType_map p hmem (by decide)
    rw [← h]
    simp [tokenString, hl, hname]

/-- C8: a Token Type is serialized via its canonical string name — the
`type` attribute holds `t.String()`; decoding an unknown name is a hard
error (the decode fails), never a silent default value; and decoding a
known name yields exactly the Token Type carrying that canonical
name. -/
theorem tokenType_name_serialisation (t : TokenType) (name tag : String)
    (attrs : List (String × String)) :
    (tokenTypeMarshal t tag attrs
      = XmlElem.elem tag (attrs ++ [("type", tokenString t)]) [])
    ∧ (tokenTypeOfName name = none →
      tokenTypeUnmarshal (XmlElem.elem tag [("type", name)] [])
        = Except.error ("unknown TokenType \"" ++ name ++ "\""))
    ∧ (∀ tt, tokenTypeOfName name = some tt →
      tokenTypeUnmarshal (XmlElem.elem tag [("type", name)] [])
        = Except.ok tt
      ∧ tokenString tt = name) := by
  refine ⟨rfl, ?_, ?_⟩
  · intro hn
    simp [tokenTypeUnmarshal, getAttr, XmlElem.attrs, hn]
  · intro tt hn
    exact ⟨by simp [tokenTypeUnmarshal, getAttr, XmlElem.attrs, hn],
      tokenName_inverse name tt hn⟩

/-- Witness for C8: `"Bogus"` is unknown and fails hard; `"Text"` decodes
to exactly the `Text` token type. -/
theorem tokenType_name_serialisation_witness :
    (tokenTypeOfName "Bogus" = none
      ∧ tokenTypeUnmarshal (XmlElem.elem "token" [("type", "Bogus")] [])
          = Except.error ("unknown TokenType \"" ++ "Bogus" ++ "\""))
    ∧ (tokenTypeOfName "Text" = some Text
      ∧ tokenTypeUnmarshal (XmlElem.elem "token" [("type", "Text")] [])
          = Except.ok Text
      ∧ tokenString Text = "Text") :=
  ⟨⟨by decide,
    (tokenType_name_serialisation 0 "Bogus" "token" []).2.1 (by decide)⟩,
   ⟨by decide,
    ((tokenType_name_serialisation 0 "Text" "token" []).2.2 Text
      (by decide)).1,
    ((tokenType_name_serialisation 0 "Text" "token" []).2.2 Text
      (by decide)).2⟩⟩

/-- C9: a rule whose emitter (or mutator) is a type-erased function value —
not a `SerialisableEmitter`/`SerialisableMutator` — is encoded with no
emission (resp. mutator) element for it: the erased field is omitted, not
corrupted, and the named-variant fields that are present are encoded
faithfully (decoding recovers them exactly, with `nil` in place of the
erased field). -/
theorem typeErased_emitter_omitted (p : String) (i j : Nat) (m : Mutator)
    (hm : Mutator.xmlSafe m = true) :
    (∃ el, encodeRule ⟨p, some (.func i), some m⟩ = Except.ok el
      ∧ el.children.filter (fun c => emitterKinds.contains c.tag) = []
      ∧ decodeRule el = Except.ok ⟨p, none, some m⟩)
    ∧ (∃ el2, encodeRule ⟨p, some (.func i), some (.mfunc j)⟩ = Except.ok el2
      ∧ el2.children = []
      ∧ decodeRule el2 = Except.ok ⟨p, none, none⟩)
    ∧ (∀ e k, Emitter.xmlSafe e = true → Emitter.kind e = some k →
      ∃ el3, encodeRule ⟨p, some e, some (.mfunc j)⟩ = Except.ok el3
        ∧ el3.children.filter (fun c => mutatorKinds.contains c.tag) = []
        ∧ decodeRule el3 = Except.ok ⟨p, some e, none⟩) := by
  refine ⟨?_, ?_, ?_⟩
  · obtain ⟨mel, hencm, hmk, hemk, hdecm⟩ := mutator_roundtrip m hm
    have hmmem : mel.tag ∈ mutatorKinds := by simpa using hmk
    have hemem : mel.tag ∉ emitterKinds := by simpa using hemk
    refine ⟨XmlElem.elem "rule"
      (if p ≠ "" then [("pattern", p)] else []) [mel], ?_, ?_, ?_⟩
    · simp [encodeRule, Emitter.kind, hencm]
    · simp [XmlElem.children, List.filter_cons, hemk, hemem]
    · simp [decodeRule, decodeRuleChildren, XmlElem.children, hemk, hemem,
        hmk, hmmem, hdecm, pattern_attr_roundtrip, ebind_ok]
  · refine ⟨XmlElem.elem "rule"
      (if p ≠ "" then [("pattern", p)] else []) [], ?_, rfl, ?_⟩
    · simp [encodeRule, Emitter.kind, encodeMutator]
    · simp [decodeRule, decodeRuleChildren, XmlElem.children,
        pattern_attr_roundtrip, ebind_ok]
  · intro e k hse hke
    obtain ⟨eel, hence, htag, hek, hmkf, hdece⟩ := emitter_roundtrip e k hse hke
    have hekmem : k ∈ emitterKinds := by simpa using hek
    have hmnem : k ∉ mutatorKinds := by simpa using hmkf
    refine ⟨XmlElem.elem "rule"
      (if p ≠ "" then [("pattern", p)] else []) [eel], ?_, ?_, ?_⟩
    · simp [encodeRule, hke, hence, encodeMutator, emap_ok, ebind_ok]
    · rw [← htag] at hmkf hmnem
      simp [XmlElem.children, List.filter_cons, hmkf, hmnem]
    · rw [← htag] at hek hekmem hdece
      simp [decodeRule, decodeRuleChildren, XmlElem.children, hek, hekmem,
        hdece, pattern_attr_roundtrip, ebind_ok]

/-- Witness for C9 at a concrete rule: erased emitter, `Push("String")`
mutator. -/
theorem typeErased_emitter_omitted_witness :
    Mutator.xmlSafe (.push ["String"]) = true
    ∧ ((∃ el,
        encodeRule ⟨"q", some (.func 0), some (.push ["String"])⟩
          = Except.ok el
        ∧ el.children.filter (fun c => emitterKinds.contains c.tag) = []
        ∧ decodeRule el = Except.ok ⟨"q", none, some (.push ["String"])⟩)
      ∧ (∃ el2,
        encodeRule ⟨"q", some (.func 0), some (.mfunc 1)⟩ = Except.ok el2
        ∧ el2.children = []
        ∧ decodeRule el2 = Except.ok ⟨"q", none, none⟩)
      ∧ (∀ e k, Emitter.xmlSafe e = true → Emitter.kind e = some k →
        ∃ el3, encodeRule ⟨"q", some e, some (.mfunc 1)⟩ = Except.ok el3
          ∧ el3.children.filter (fun c => mutatorKinds.contains c.tag) = []
          ∧ decodeRule el3 = Except.ok ⟨"q", some e, none⟩)) :=
  ⟨by decide,
   typeErased_emitter_omitted "q" 0 1 (.push ["String"]) (by decide)⟩

end Chroma
